import Mathlib

set_option maxHeartbeats 1000000

/-!
Shallow embedding of the incremental mailing-list synchronizer in
`src/mlbot.py` (pythonitalia/pi-bot), covering the period enumerator
(`months_after`), the row formatter (`build_thread_row`), the paginator
(`paginate_message`), the update cycle (`check_new_threads`), and the
checkpoint-set command (`set_last_check`).

Conventions of the embedding:
* Python `datetime` values are modelled by `Timestamp`: the calendar fields
  `year`/`month` (as read by `months_after`) plus a linear instant `ts : Nat`
  used for datetime comparison.
* `human_date` (strftime `%c`) is an external locale-dependent rendering; all
  functions that call it take it as a parameter `hd : Nat → String` keyed by
  the instant being rendered.
* Network fetching and date parsing of one archive entry
  (`threads_for_month` / `get_date`) are external effects; an entry is
  modelled by `RawEntry`: either an uncaught fetch exception, or a scraped
  `(date, title, relative-link)` triple whose date is `none` exactly when
  both parsers inside `get_date` fail (in Python, `get_date` returns `None`).
* Python strings are modelled by `String`, with slicing and `str.strip`
  expressed over the character list `String.data`.
-/

/-- Timezone-aware absolute instant: `year`/`month` are the calendar fields
(`date.year`, `date.month` in the source, month in 1..12) and `ts` the linear
key that datetime comparison (`<=` in Python) uses. -/
structure Timestamp where
  year : Nat
  month : Nat
  ts : Nat
  deriving DecidableEq

/-- Mutable state of `MailingListBot`: `last_check` is the checkpoint set in
`__init__` to `now()`, `started` the flag set by `/start`. -/
structure BotState where
  last_check : Timestamp
  started : Bool
  deriving DecidableEq

/-- English month names (`calendar.month_name` captured under the `en_US`
locale in `__init__`): index 0 is the empty string, index m (1..12) names
month m. -/
def month_names : List String :=
  ["", "January", "February", "March", "April", "May", "June",
   "July", "August", "September", "October", "November", "December"]

/-- Period enumerator `MailingListBot.months_after`: the source computes
`start = 12*date.year + date.month - 1`, `end = 12*today.year + today.month`,
and for `mm` in `range(start, end)` yields `divmod(mm, 12) = (y, m)` as the
pair `(str(y), month_names[m+1])`. The embedding yields the numeric pair
`(y, m+1)` that those two strings denote. -/
def months_after (date today : Timestamp) : List (Nat × Nat) :=
  let start := 12 * date.year + date.month - 1
  let stop := 12 * today.year + today.month
  (List.range' start (stop - start)).map fun mm => (mm / 12, mm % 12 + 1)

/-- Python slicing `s[:n]` over the character sequence of `s`, including the
negative-index case (`s[:-k]` drops the last `k` characters). -/
def pySliceTo (s : String) (n : Int) : String :=
  if 0 ≤ n then String.mk (s.data.take n.toNat)
  else String.mk (s.data.take (s.length - (-n).toNat))

/-- Python `str.strip()`: drop whitespace from both ends. -/
def pyStrip (s : String) : String :=
  String.mk (((s.data.dropWhile Char.isWhitespace).reverse.dropWhile
    Char.isWhitespace).reverse)

/-- Row formatter `build_thread_row`: `max_len = 4000 - len(url)`, the title is
stripped and sliced to `max_len`, and the row is
`' - <a href="{url}">{title} {human_date(date)}</a>'` (with `hd` standing for
`human_date`). -/
def build_thread_row (hd : Nat → String) (date : Nat) (message url : String) :
    String :=
  " - <a href=\"" ++ url ++ "\">" ++
    pySliceTo (pyStrip message) (4000 - (url.length : Int)) ++ " " ++
    hd date ++ "</a>"

/-- Loop body of `paginate_message`: `acc` is the accumulator string; for each
row, if `len(acc + row) + 1 > 4000` the accumulator is yielded and restarted
at `row + '\n'`, otherwise `row + '\n'` is appended; the final accumulator is
always yielded. -/
def paginateAux (acc : String) : List String → List String
  | [] => [acc]
  | row :: rest =>
    if (acc ++ row).length + 1 > 4000 then
      acc :: paginateAux (row ++ "\n") rest
    else
      paginateAux (acc ++ row ++ "\n") rest

/-- Paginator `paginate_message`: splits rows into chunks, starting from an
empty accumulator. -/
def paginate_message (rows : List String) : List String :=
  paginateAux "" rows

/-- Size contributed by a chunk's rows to the accumulator string: each row is
stored as `row + '\n'`. -/
def chunkLen (c : List String) : Nat := (c.map fun r => r.length + 1).sum

/-- Row-level image of `paginate_message`: the same greedy loop, tracking the
accumulator as the list of whole rows it holds instead of the concatenated
string. -/
def paginateChunksAux (acc : List String) : List String → List (List String)
  | [] => [acc]
  | row :: rest =>
    if chunkLen acc + row.length + 1 > 4000 then
      acc :: paginateChunksAux [row] rest
    else
      paginateChunksAux (acc ++ [row]) rest

/-- Row-level pagination starting from the empty accumulator. -/
def paginate_chunks (rows : List String) : List (List String) :=
  paginateChunksAux [] rows

/-- Concatenation of a chunk's rows, each terminated by the newline that
`paginate_message` appends. -/
def chunkString : List String → String
  | [] => ""
  | r :: c => r ++ "\n" ++ chunkString c

/-- Archive page address `get_month_url`: the source formats
`'http://lists.python.it/pipermail/pycon/{year}-{month_name}/'` from the
strings produced by `months_after`; the embedding rebuilds them from the
numeric pair. -/
def get_month_url (year month : Nat) : String :=
  "http://lists.python.it/pipermail/pycon/" ++ toString year ++ "-" ++
    month_names.getD month "" ++ "/"

/-- One element of the lazy sequence produced by `threads_for_month`.
Materializing an entry runs `get_date` on the message page: `fetchErr` models
an uncaught exception raised by `urllib.request.urlopen` there, and
`entry none title url` models both date parsers failing, in which case
`get_date` returns Python `None`. -/
inductive RawEntry where
  | fetchErr : RawEntry
  | entry : Option Nat → String → String → RawEntry
  deriving DecidableEq

/-- Unrecoverable Python exceptions that can escape `check_new_threads`:
`typeError` is `None <= datetime` at the filter comparison, `fetchError` an
uncaught network error while materializing an entry, `deliveryError` an
exception from `bot.send_message`. -/
inductive CycleError where
  | typeError
  | fetchError
  | deliveryError
  deriving DecidableEq

/-- Inner loop of `check_new_threads` over one month's entries: materialize
each entry in order; an unparseable date reaches `td <= self.last_check` as
`None` and raises `TypeError`; otherwise entries with `td <= since` are
skipped and newer ones appended as `build_thread_row(td, tm, base_url + tu)`. -/
def collectEntries (hd : Nat → String) (since : Nat) (base : String) :
    List RawEntry → Except CycleError (List String)
  | [] => .ok []
  | .fetchErr :: _ => .error .fetchError
  | .entry none _ _ :: _ => .error .typeError
  | .entry (some td) tm tu :: rest =>
    if td ≤ since then collectEntries hd since base rest
    else (collectEntries hd since base rest).map
      (fun rows => build_thread_row hd td tm (base ++ tu) :: rows)

/-- Outer loop of `check_new_threads` over the enumerated months, accumulating
rows in chronological order; the first uncaught per-entry exception aborts the
whole collection. -/
def collectMonths (hd : Nat → String) (since : Nat)
    (archive : Nat × Nat → List RawEntry) :
    List (Nat × Nat) → Except CycleError (List String)
  | [] => .ok []
  | ym :: rest =>
    match collectEntries hd since (get_month_url ym.1 ym.2) (archive ym) with
    | .error e => .error e
    | .ok rows =>
      match collectMonths hd since archive rest with
      | .error e => .error e
      | .ok more => .ok (rows ++ more)

/-- Delivery loop: `bot.send_message` for each chunk in order; `deliverOk i`
tells whether the i-th send succeeds, and the first failing send raises. -/
def deliverChunks (deliverOk : Nat → Bool) :
    Nat → List String → Except CycleError Unit
  | _, [] => .ok ()
  | i, _ :: rest =>
    if deliverOk i then deliverChunks deliverOk (i + 1) rest
    else .error .deliveryError

/-- Environment of one `check_new_threads` invocation: `today` is the `now()`
read inside `months_after`, `archive` the scraped entries of each period,
`nowEnd` the `now()` captured at the checkpoint assignment, `deliverOk` the
outcome of each `bot.send_message` call. -/
structure CycleInput where
  today : Timestamp
  archive : Nat × Nat → List RawEntry
  nowEnd : Timestamp
  deliverOk : Nat → Bool

/-- Update cycle `check_new_threads`: collect rows newer than the checkpoint
over `months_after(self.last_check)`; then assign `self.last_check = now()`;
then, if any rows were found, paginate `[header] + rows` and send each chunk.
The returned pair is the bot state as left by the (possibly aborted) cycle and
either the first uncaught exception or the list of chunks that were sent. -/
def check_new_threads (hd : Nat → String) (inp : CycleInput) (s : BotState) :
    BotState × Except CycleError (List String) :=
  match collectMonths hd s.last_check.ts inp.archive
      (months_after s.last_check inp.today) with
  | .error e => (s, .error e)
  | .ok new_threads =>
    let s1 : BotState := ⟨inp.nowEnd, s.started⟩
    if new_threads = [] then (s1, .ok [])
    else
      let out := "<b>New threads since " ++ hd inp.nowEnd.ts ++ "</b>\n"
      let chunks := paginate_message (out :: new_threads)
      match deliverChunks inp.deliverOk 0 chunks with
      | .error e => (s1, .error e)
      | .ok _ => (s1, .ok chunks)

/-- Checkpoint values observed after each successive `check_new_threads`
invocation. -/
def checkpointTrace (hd : Nat → String) (s : BotState) :
    List CycleInput → List Nat
  | [] => []
  | inp :: rest =>
    ((check_new_threads hd inp s).1).last_check.ts ::
      checkpointTrace hd (check_new_threads hd inp s).1 rest

/-- Python `text.index(' ') + 1` followed by `text[skip:]`: the text after the
first space, or `none` when `index` raises `ValueError` (no space present). -/
def argAfterSpace (text : String) : Option String :=
  match text.data.indexOf? ' ' with
  | none => none
  | some i => some (String.mk (text.data.drop (i + 1)))

/-- Reply sent when `/slc` is used before `/start`. -/
def notStartedMsg : String := "Bot was not started. Use /start first"

/-- Reply sent from the `except ValueError` handler of `set_last_check`. -/
def parseErrorMsg : String :=
  "Sorry, I did not understand. Please, send dates in unambiguous format (e.g. yyyy-mm-dd)"

/-- Checkpoint-set command `set_last_check`: requires the bot started, takes
the text after the first space, parses it with `maya.when` (modelled by
`when`, `none` when it raises `ValueError`), and on success assigns
`self.last_check` and confirms; any `ValueError` is reported and leaves the
state untouched. -/
def set_last_check (hd : Nat → String) (when : String → Option Timestamp)
    (s : BotState) (text : String) : BotState × String :=
  if s.started = false then (s, notStartedMsg)
  else
    match argAfterSpace text with
    | none => (s, parseErrorMsg)
    | some arg =>
      match when arg with
      | none => (s, parseErrorMsg)
      | some day => (⟨day, s.started⟩, "Setting last check: " ++ hd day.ts)

lemma chunkLen_singleton (r : String) : chunkLen [r] = r.length + 1 := by
  simp [chunkLen]

lemma chunkLen_append_singleton (c : List String) (r : String) :
    chunkLen (c ++ [r]) = chunkLen c + (r.length + 1) := by
  simp [chunkLen]

lemma chunkString_length (c : List String) :
    (chunkString c).length = chunkLen c := by
  induction c with
  | nil => rfl
  | cons r c ih =>
    have h1 : ("\n" : String).length = 1 := rfl
    simp only [chunkString, chunkLen, List.map_cons, List.sum_cons,
      String.length_append, h1] at *
    omega

lemma chunkString_append (c : List String) (r : String) :
    chunkString (c ++ [r]) = chunkString c ++ (r ++ "\n") := by
  induction c with
  | nil => simp [chunkString]
  | cons x c ih => simp [chunkString, ih, String.append_assoc]

lemma paginateAux_eq_chunks (rows : List String) (accL : List String) :
    paginateAux (chunkString accL) rows =
      (paginateChunksAux accL rows).map chunkString := by
  induction rows generalizing accL with
  | nil => simp [paginateAux, paginateChunksAux]
  | cons row rest ih =>
    simp only [paginateAux, paginateChunksAux, String.length_append,
      chunkString_length]
    by_cases h : chunkLen accL + row.length + 1 > 4000
    · rw [if_pos h, if_pos h, List.map_cons]
      have hrow : row ++ "\n" = chunkString [row] := by simp [chunkString]
      rw [hrow, ih]
    · rw [if_neg h, if_neg h]
      have hacc : chunkString accL ++ row ++ "\n" = chunkString (accL ++ [row]) := by
        rw [chunkString_append, String.append_assoc]
      rw [hacc, ih]

lemma paginateChunksAux_flatten (rows : List String) (accL : List String) :
    (paginateChunksAux accL rows).flatten = accL ++ rows := by
  induction rows generalizing accL with
  | nil => simp [paginateChunksAux]
  | cons row rest ih =>
    simp only [paginateChunksAux]
    by_cases h : chunkLen accL + row.length + 1 > 4000
    · rw [if_pos h]
      simp [List.flatten_cons, ih]
    · rw [if_neg h, ih]
      simp

lemma paginateChunksAux_bound (rows : List String) (accL : List String)
    (hacc : chunkLen accL ≤ 4000 ∨ ∃ r, accL = [r] ∧ 4000 < r.length + 1) :
    ∀ c ∈ paginateChunksAux accL rows,
      chunkLen c ≤ 4000 ∨ ∃ r, c = [r] ∧ 4000 < r.length + 1 := by
  induction rows generalizing accL with
  | nil =>
    intro c hc
    simp only [paginateChunksAux, List.mem_singleton] at hc
    subst hc; exact hacc
  | cons row rest ih =>
    intro c hc
    simp only [paginateChunksAux] at hc
    by_cases h : chunkLen accL + row.length + 1 > 4000
    · rw [if_pos h] at hc
      rcases List.mem_cons.mp hc with rfl | hc
      · exact hacc
      · refine ih [row] ?_ c hc
        by_cases hr : row.length + 1 ≤ 4000
        · left; rw [chunkLen_singleton]; omega
        · right; exact ⟨row, rfl, by omega⟩
    · rw [if_neg h] at hc
      refine ih (accL ++ [row]) ?_ c hc
      left
      rw [chunkLen_append_singleton]
      omega

lemma string_ne_empty_of_length_pos {s : String} (h : 0 < s.length) :
    s ≠ "" := by
  intro he
  rw [he] at h
  exact absurd h (by decide)

lemma paginateAux_ne_nil (rows : List String) (acc : String) :
    paginateAux acc rows ≠ [] := by
  induction rows generalizing acc with
  | nil => simp [paginateAux]
  | cons row rest ih =>
    simp only [paginateAux]
    by_cases h : (acc ++ row).length + 1 > 4000
    · rw [if_pos h]; simp
    · rw [if_neg h]; exact ih _

lemma paginateAux_all_ne_empty (rows : List String) (acc : String)
    (hacc : acc ≠ "") : ∀ c ∈ paginateAux acc rows, c ≠ "" := by
  induction rows generalizing acc with
  | nil =>
    intro c hc
    simp only [paginateAux, List.mem_singleton] at hc
    subst hc; exact hacc
  | cons row rest ih =>
    intro c hc
    simp only [paginateAux] at hc
    have h1 : ("\n" : String).length = 1 := rfl
    by_cases h : (acc ++ row).length + 1 > 4000
    · rw [if_pos h] at hc
      rcases List.mem_cons.mp hc with rfl | hc
      · exact hacc
      · refine ih _ ?_ c hc
        apply string_ne_empty_of_length_pos
        rw [String.length_append, h1]
        omega
    · rw [if_neg h] at hc
      refine ih _ ?_ c hc
      apply string_ne_empty_of_length_pos
      rw [String.length_append, h1]
      omega

/-- C6: for every finite input sequence of rows, concatenating the chunks
produced by `paginate_message`, in the order they are yielded, reproduces
exactly the original rows in their original order: at the row level
(`paginate_chunks`) flattening the chunks gives back the input with no row
dropped, duplicated or reordered, and each string chunk of `paginate_message`
is exactly the concatenation of its chunk's whole rows (each with its newline
terminator), so no row is split across two chunks. -/
theorem paginate_message_preserves_rows (rows : List String) :
    (paginate_chunks rows).flatten = rows ∧
    paginate_message rows = (paginate_chunks rows).map chunkString := by
  constructor
  · simpa using paginateChunksAux_flatten rows []
  · simpa [paginate_message, paginate_chunks, chunkString] using
      paginateAux_eq_chunks rows []

/-- C7 amended: every chunk yielded by `paginate_message` has length at most
4000, except a chunk consisting of a single row whose length plus the
one-character newline terminator exceeds 4000 (that is, a row of length at
least 4000); such a row is still emitted alone in its own oversized chunk
rather than dropped. -/
theorem paginate_message_chunk_bound (rows : List String) (c : String)
    (hc : c ∈ paginate_message rows) :
    c.length ≤ 4000 ∨ ∃ r ∈ rows, c = r ++ "\n" ∧ 4000 < r.length + 1 := by
  have heq := paginateAux_eq_chunks rows []
  simp only [chunkString] at heq
  rw [paginate_message, heq] at hc
  rcases List.mem_map.mp hc with ⟨d, hd, rfl⟩
  rcases paginateChunksAux_bound rows []
      (by left; simp [chunkLen]) d hd with h | ⟨r, rfl, hr⟩
  · left
    rw [chunkString_length]
    exact h
  · right
    refine ⟨r, ?_, by simp [chunkString], hr⟩
    have hmem : r ∈ (paginateChunksAux [] rows).flatten :=
      List.mem_flatten_of_mem hd (by simp)
    rwa [paginateChunksAux_flatten, List.nil_append] at hmem

/-- C7 witness at a small input: the single chunk of `paginate_message ["x"]`
is within the bound. -/
theorem paginate_message_chunk_bound_witness :
    ("x\n" : String).length ≤ 4000 ∨
      ∃ r ∈ (["x"] : List String), ("x\n" : String) = r ++ "\n" ∧
        4000 < r.length + 1 :=
  paginate_message_chunk_bound ["x"] "x\n" (by decide)

/-- C7 counterexample: a row of length exactly 4000 is emitted as a chunk of
length 4001, which exceeds 4000 while the row's own length does not exceed
4000, so the claim's exception clause does not cover it. -/
theorem paginate_message_chunk_bound_counterexample :
    ¬ (∀ c ∈ paginate_message [String.mk (List.replicate 4000 'a')],
        c.length ≤ 4000 ∨ ∃ r, c = r ++ "\n" ∧ 4000 < r.length) := by
  intro h
  have hlen : (String.mk (List.replicate 4000 'a')).length = 4000 := by
    show (List.replicate 4000 'a').length = 4000
    rw [List.length_replicate]
  have hnl : ("\n" : String).length = 1 := rfl
  have hcond : ("" ++ String.mk (List.replicate 4000 'a')).length + 1 > 4000 := by
    rw [String.length_append, hlen]
    decide
  have hmem : (String.mk (List.replicate 4000 'a') ++ "\n") ∈
      paginate_message [String.mk (List.replicate 4000 'a')] := by
    unfold paginate_message paginateAux
    rw [if_pos hcond]
    unfold paginateAux
    simp
  rcases h _ hmem with h1 | ⟨r, hr, hrl⟩
  · rw [String.length_append, hlen, hnl] at h1
    omega
  · have hlr := congrArg String.length hr
    rw [String.length_append, String.length_append, hlen, hnl] at hlr
    omega

/-- C8 counterexample: on the empty input `paginate_message` yields exactly
one chunk, and that chunk is the empty string, so not every chunk is
non-empty. -/
theorem paginate_message_nonempty_counterexample :
    ¬ (paginate_message [] ≠ [] ∧ ∀ c ∈ paginate_message [], c ≠ "") := by
  intro h
  exact h.2 "" (by decide) rfl

/-- C8 amended: `paginate_message` always yields at least one chunk; and
whenever the input is non-empty and every row has length at most 3999 (so
that a row together with its newline terminator fits an empty accumulator),
every yielded chunk is non-empty. Without those provisos an empty chunk is
yielded: the final chunk is empty on empty input, and an empty accumulator is
emitted as an empty chunk right before an oversized row. -/
theorem paginate_message_chunks_nonempty (rows : List String) :
    paginate_message rows ≠ [] ∧
    (rows ≠ [] → (∀ r ∈ rows, r.length ≤ 3999) →
      ∀ c ∈ paginate_message rows, c ≠ "") := by
  constructor
  · exact paginateAux_ne_nil rows ""
  · intro hne hb
    match rows, hne with
    | row :: rest, _ =>
      have hrow : row.length ≤ 3999 := hb row (by simp)
      have hempty : ("" : String).length = 0 := rfl
      have hnl : ("\n" : String).length = 1 := rfl
      have hcond : ¬ (("" ++ row).length + 1 > 4000) := by
        rw [String.length_append, hempty]
        omega
      intro c hc
      simp only [paginate_message, paginateAux] at hc
      rw [if_neg hcond] at hc
      refine paginateAux_all_ne_empty rest ("" ++ row ++ "\n") ?_ c hc
      apply string_ne_empty_of_length_pos
      rw [String.length_append, String.length_append, hempty, hnl]
      omega

/-- C8 witness at a small input: one chunk, and no empty chunk. -/
theorem paginate_message_chunks_nonempty_witness :
    paginate_message ["x"] ≠ [] ∧ ∀ c ∈ paginate_message ["x"], c ≠ "" :=
  ⟨(paginate_message_chunks_nonempty ["x"]).1,
   (paginate_message_chunks_nonempty ["x"]).2 (by decide) (by decide)⟩

lemma months_after_apply (y0 m0 t0 y1 m1 t1 : Nat) :
    months_after ⟨y0, m0, t0⟩ ⟨y1, m1, t1⟩ =
      (List.range' (12 * y0 + m0 - 1)
        (12 * y1 + m1 - (12 * y0 + m0 - 1))).map
        fun mm => (mm / 12, mm % 12 + 1) := rfl

lemma range'_head?_of_pos (s n : Nat) (h : 0 < n) :
    (List.range' s n).head? = some s := by
  cases n with
  | zero => omega
  | succ k => rw [List.range'_succ]; rfl

lemma range'_getLast?_of_pos (s n : Nat) (h : 0 < n) :
    (List.range' s n).getLast? = some (s + n - 1) := by
  cases n with
  | zero => omega
  | succ k =>
    rw [List.range'_concat, List.getLast?_concat]
    congr 1
    omega

lemma range'_pairwise_lt (s n : Nat) :
    (List.range' s n).Pairwise (· < ·) := by
  rw [List.pairwise_iff_getElem]
  intro i j hi hj hij
  simp only [List.getElem_range']
  simp only [List.length_range'] at hi hj
  omega

/-- C1: for a checkpoint with calendar fields (y0, m0) and a current time with
fields (y1, m1), both months valid and 12*y0+m0 ≤ 12*y1+m1, `months_after`
yields exactly (12*y1+m1) - (12*y0+m0) + 1 periods, strictly increasing in the
linear month index (hence chronological with no duplicates), the first being
(y0, m0) and the last (y1, m1); in particular exactly one period when the
checkpoint's month equals the current month. -/
theorem months_after_enumeration (y0 m0 y1 m1 t0 t1 : Nat)
    (hm0a : 1 ≤ m0) (hm0b : m0 ≤ 12) (hm1a : 1 ≤ m1) (hm1b : m1 ≤ 12)
    (hle : 12 * y0 + m0 ≤ 12 * y1 + m1) :
    (months_after ⟨y0, m0, t0⟩ ⟨y1, m1, t1⟩).length =
        (12 * y1 + m1) - (12 * y0 + m0) + 1 ∧
      (months_after ⟨y0, m0, t0⟩ ⟨y1, m1, t1⟩).head? = some (y0, m0) ∧
      (months_after ⟨y0, m0, t0⟩ ⟨y1, m1, t1⟩).getLast? = some (y1, m1) ∧
      List.Chain' (fun a b : Nat × Nat => 12 * a.1 + a.2 < 12 * b.1 + b.2)
        (months_after ⟨y0, m0, t0⟩ ⟨y1, m1, t1⟩) ∧
      (months_after ⟨y0, m0, t0⟩ ⟨y1, m1, t1⟩).Nodup ∧
      (y0 = y1 → m0 = m1 →
        (months_after ⟨y0, m0, t0⟩ ⟨y1, m1, t1⟩).length = 1) := by
  rw [months_after_apply]
  have hp : (List.range' (12 * y0 + m0 - 1)
      (12 * y1 + m1 - (12 * y0 + m0 - 1))).Pairwise
      (fun a b => 12 * (a / 12) + (a % 12 + 1) < 12 * (b / 12) + (b % 12 + 1)) := by
    refine (range'_pairwise_lt _ _).imp ?_
    intro a b hab
    omega
  have hpmap := (List.pairwise_map (l := List.range' (12 * y0 + m0 - 1)
      (12 * y1 + m1 - (12 * y0 + m0 - 1)))
      (f := fun mm => (mm / 12, mm % 12 + 1))
      (R := fun a b : Nat × Nat => 12 * a.1 + a.2 < 12 * b.1 + b.2)).mpr hp
  refine ⟨?_, ?_, ?_, ?_, ?_, ?_⟩
  · rw [List.length_map, List.length_range']
    omega
  · rw [List.head?_map, range'_head?_of_pos _ _ (by omega)]
    show some ((12 * y0 + m0 - 1) / 12, (12 * y0 + m0 - 1) % 12 + 1) =
      some (y0, m0)
    have h1 : (12 * y0 + m0 - 1) / 12 = y0 := by omega
    have h2 : (12 * y0 + m0 - 1) % 12 + 1 = m0 := by omega
    rw [h1, h2]
  · rw [List.getLast?_map, range'_getLast?_of_pos _ _ (by omega)]
    have he : 12 * y0 + m0 - 1 + (12 * y1 + m1 - (12 * y0 + m0 - 1)) - 1 =
        12 * y1 + m1 - 1 := by omega
    rw [he]
    show some ((12 * y1 + m1 - 1) / 12, (12 * y1 + m1 - 1) % 12 + 1) =
      some (y1, m1)
    have h1 : (12 * y1 + m1 - 1) / 12 = y1 := by omega
    have h2 : (12 * y1 + m1 - 1) % 12 + 1 = m1 := by omega
    rw [h1, h2]
  · exact hpmap.chain'
  · refine hpmap.imp ?_
    intro a b hab heq
    rw [heq] at hab
    omega
  · intro hy hm
    rw [List.length_map, List.length_range']
    omega

/-- C1 witness: checkpoint month June 2017 and current month July 2017 give
two periods, (2017, 6) then (2017, 7). -/
theorem months_after_enumeration_witness :
    (months_after ⟨2017, 6, 0⟩ ⟨2017, 7, 0⟩).length =
        (12 * 2017 + 7) - (12 * 2017 + 6) + 1 ∧
      (months_after ⟨2017, 6, 0⟩ ⟨2017, 7, 0⟩).head? = some (2017, 6) ∧
      (months_after ⟨2017, 6, 0⟩ ⟨2017, 7, 0⟩).getLast? = some (2017, 7) ∧
      List.Chain' (fun a b : Nat × Nat => 12 * a.1 + a.2 < 12 * b.1 + b.2)
        (months_after ⟨2017, 6, 0⟩ ⟨2017, 7, 0⟩) ∧
      (months_after ⟨2017, 6, 0⟩ ⟨2017, 7, 0⟩).Nodup ∧
      (2017 = 2017 → 6 = 7 →
        (months_after ⟨2017, 6, 0⟩ ⟨2017, 7, 0⟩).length = 1) :=
  months_after_enumeration 2017 6 2017 7 0 0 (by decide) (by decide)
    (by decide) (by decide) (by decide)

lemma dropWhile_eq_self_of_head (p : Char → Bool) (l : List Char)
    (h : ∀ x ∈ l, p x = false) : l.dropWhile p = l := by
  cases l with
  | nil => rfl
  | cons x xs =>
    rw [List.dropWhile_cons, h x (by simp)]
    simp

lemma pyStrip_of_no_whitespace (l : List Char)
    (h : ∀ x ∈ l, x.isWhitespace = false) :
    pyStrip (String.mk l) = String.mk l := by
  show String.mk (((l.dropWhile Char.isWhitespace).reverse.dropWhile
    Char.isWhitespace).reverse) = String.mk l
  rw [dropWhile_eq_self_of_head _ l h,
    dropWhile_eq_self_of_head _ l.reverse
      (by intro x hx; exact h x (List.mem_reverse.mp hx)),
    List.reverse_reverse]

lemma pySliceTo_length_nonneg (s : String) (n : Int) (h : 0 ≤ n) :
    (pySliceTo s n).length = min n.toNat s.length := by
  unfold pySliceTo
  rw [if_pos h]
  show (s.data.take n.toNat).length = min n.toNat s.length
  rw [List.length_take]
  rfl

lemma build_thread_row_length (hd : Nat → String) (date : Nat)
    (message url : String) :
    (build_thread_row hd date message url).length =
      12 + url.length + 2 +
        (pySliceTo (pyStrip message) (4000 - (url.length : Int))).length +
        1 + (hd date).length + 4 := by
  have h1 : (" - <a href=\"" : String).length = 12 := rfl
  have h2 : ("\">" : String).length = 2 := rfl
  have h3 : (" " : String).length = 1 := rfl
  have h4 : ("</a>" : String).length = 4 := rfl
  unfold build_thread_row
  simp only [String.length_append, h1, h2, h3, h4]

/-- C9 counterexample: with a one-character URL, a one-character rendered date
and a 4001-character title, the rendered row has length 4020, which exceeds
the 4000 maximum the claim asserts. -/
theorem build_thread_row_counterexample :
    ¬ ((build_thread_row (fun _ => "d") 0
        (String.mk (List.replicate 4001 'a')) "u").length ≤ 4000) := by
  have hstrip : pyStrip (String.mk (List.replicate 4001 'a')) =
      String.mk (List.replicate 4001 'a') := by
    refine pyStrip_of_no_whitespace _ ?_
    intro x hx
    rw [List.eq_of_mem_replicate hx]
    rfl
  have hlen : (String.mk (List.replicate 4001 'a')).length = 4001 := by
    show (List.replicate 4001 'a').length = 4001
    rw [List.length_replicate]
  have hu : ("u" : String).length = 1 := rfl
  have hslice : (pySliceTo (pyStrip (String.mk (List.replicate 4001 'a')))
      (4000 - (("u" : String).length : Int))).length = 3999 := by
    rw [hstrip, pySliceTo_length_nonneg _ _ (by rw [hu]; decide), hlen, hu]
    decide
  intro h
  rw [build_thread_row_length, hslice, hu] at h
  have hdl : ((fun _ : Nat => ("d" : String)) 0).length = 1 := rfl
  rw [hdl] at h
  omega

/-- C9 amended: `build_thread_row` truncates the stripped title so that the
title and the URL together fit in 4000 characters (whenever the URL itself has
at most 4000 characters); the full rendered row is therefore bounded by 4019
characters plus the length of the rendered date string, not by 4000 itself;
and the URL always appears in the row complete and untruncated. -/
theorem build_thread_row_truncation (hd : Nat → String) (date : Nat)
    (message url : String) (h : url.length ≤ 4000) :
    (pySliceTo (pyStrip message) (4000 - (url.length : Int))).length +
        url.length ≤ 4000 ∧
      (build_thread_row hd date message url).length ≤
        4019 + (hd date).length ∧
      ∃ p q, build_thread_row hd date message url = p ++ (url ++ q) := by
  have htitle : (pySliceTo (pyStrip message)
      (4000 - (url.length : Int))).length ≤ 4000 - url.length := by
    rw [pySliceTo_length_nonneg _ _ (by omega)]
    have he : ((4000 : Int) - (url.length : Int)).toNat = 4000 - url.length := by
      omega
    rw [he]
    omega
  refine ⟨by omega, ?_, ?_⟩
  · rw [build_thread_row_length]
    omega
  · refine ⟨" - <a href=\"", "\">" ++ pySliceTo (pyStrip message)
      (4000 - (url.length : Int)) ++ " " ++ hd date ++ "</a>", ?_⟩
    unfold build_thread_row
    simp [String.append_assoc]

lemma collectEntries_error_cases (hd : Nat → String) (since : Nat)
    (base : String) (l : List RawEntry) (e : CycleError)
    (h : collectEntries hd since base l = .error e) :
    e = CycleError.typeError ∨ e = CycleError.fetchError := by
  induction l with
  | nil => simp [collectEntries] at h
  | cons r rest ih =>
    match r with
    | .fetchErr =>
      simp only [collectEntries, Except.error.injEq] at h
      exact Or.inr h.symm
    | .entry none tm tu =>
      simp only [collectEntries, Except.error.injEq] at h
      exact Or.inl h.symm
    | .entry (some td) tm tu =>
      simp only [collectEntries] at h
      by_cases hle : td ≤ since
      · rw [if_pos hle] at h
        exact ih h
      · rw [if_neg hle] at h
        cases hce : collectEntries hd since base rest with
        | error e2 =>
          rw [hce] at h
          simp only [Except.map, Except.error.injEq] at h
          subst h
          exact ih hce
        | ok rows =>
          rw [hce] at h
          simp [Except.map] at h

lemma collectMonths_error_cases (hd : Nat → String) (since : Nat)
    (archive : Nat × Nat → List RawEntry) (months : List (Nat × Nat))
    (e : CycleError) (h : collectMonths hd since archive months = .error e) :
    e = CycleError.typeError ∨ e = CycleError.fetchError := by
  induction months with
  | nil => simp [collectMonths] at h
  | cons ym rest ih =>
    simp only [collectMonths] at h
    split at h
    · rename_i e2 heq
      injection h with h
      subst h
      exact collectEntries_error_cases hd since _ (archive ym) e2 heq
    · rename_i rows heq
      split at h
      · rename_i e2 heq2
        injection h with h
        subst h
        exact ih heq2
      · cases h

lemma deliverChunks_error_is_delivery (deliverOk : Nat → Bool) (i : Nat)
    (l : List String) (e : CycleError)
    (h : deliverChunks deliverOk i l = .error e) :
    e = CycleError.deliveryError := by
  induction l generalizing i with
  | nil => simp [deliverChunks] at h
  | cons c rest ih =>
    simp only [deliverChunks] at h
    by_cases hok : deliverOk i
    · rw [if_pos hok] at h
      exact ih _ h
    · rw [if_neg hok] at h
      injection h with h
      exact h.symm

lemma check_new_threads_of_collect_error (hd : Nat → String)
    (inp : CycleInput) (s : BotState) (e : CycleError)
    (hcm : collectMonths hd s.last_check.ts inp.archive
      (months_after s.last_check inp.today) = .error e) :
    check_new_threads hd inp s = (s, .error e) := by
  unfold check_new_threads
  rw [hcm]

lemma check_new_threads_of_collect_ok_nil (hd : Nat → String)
    (inp : CycleInput) (s : BotState)
    (hcm : collectMonths hd s.last_check.ts inp.archive
      (months_after s.last_check inp.today) = .ok []) :
    check_new_threads hd inp s = (⟨inp.nowEnd, s.started⟩, .ok []) := by
  unfold check_new_threads
  rw [hcm]
  rfl

lemma check_new_threads_of_deliver_error (hd : Nat → String)
    (inp : CycleInput) (s : BotState) (new_threads : List String)
    (e : CycleError) (hne : ¬ (new_threads = []))
    (hcm : collectMonths hd s.last_check.ts inp.archive
      (months_after s.last_check inp.today) = .ok new_threads)
    (hdc : deliverChunks inp.deliverOk 0 (paginate_message
      (("<b>New threads since " ++ hd inp.nowEnd.ts ++ "</b>\n") ::
        new_threads)) = .error e) :
    check_new_threads hd inp s = (⟨inp.nowEnd, s.started⟩, .error e) := by
  simp only [check_new_threads, hcm]
  rw [if_neg hne, hdc]

lemma check_new_threads_of_deliver_ok (hd : Nat → String)
    (inp : CycleInput) (s : BotState) (new_threads : List String)
    (hne : ¬ (new_threads = []))
    (hcm : collectMonths hd s.last_check.ts inp.archive
      (months_after s.last_check inp.today) = .ok new_threads)
    (hdc : deliverChunks inp.deliverOk 0 (paginate_message
      (("<b>New threads since " ++ hd inp.nowEnd.ts ++ "</b>\n") ::
        new_threads)) = .ok ()) :
    check_new_threads hd inp s = (⟨inp.nowEnd, s.started⟩,
      .ok (paginate_message
        (("<b>New threads since " ++ hd inp.nowEnd.ts ++ "</b>\n") ::
          new_threads))) := by
  simp only [check_new_threads, hcm]
  rw [if_neg hne, hdc]

lemma check_new_threads_last_check_cases (hd : Nat → String)
    (inp : CycleInput) (s : BotState) :
    (check_new_threads hd inp s).1.last_check = s.last_check ∨
      (check_new_threads hd inp s).1.last_check = inp.nowEnd := by
  cases hcm : collectMonths hd s.last_check.ts inp.archive
      (months_after s.last_check inp.today) with
  | error e =>
    rw [check_new_threads_of_collect_error hd inp s e hcm]
    left; rfl
  | ok new_threads =>
    by_cases hnil : new_threads = []
    · subst hnil
      rw [check_new_threads_of_collect_ok_nil hd inp s hcm]
      right; rfl
    · cases hdc : deliverChunks inp.deliverOk 0 (paginate_message
          (("<b>New threads since " ++ hd inp.nowEnd.ts ++ "</b>\n") ::
            new_threads)) with
      | error e =>
        rw [check_new_threads_of_deliver_error hd inp s new_threads e hnil
          hcm hdc]
        right; rfl
      | ok u =>
        cases u
        rw [check_new_threads_of_deliver_ok hd inp s new_threads hnil hcm hdc]
        right; rfl

/-- C2 (code-bug demonstration): at a concrete cycle whose month contains an
entry with an unparseable date (`get_date` returns `None`) followed by a
newer, parseable entry, the comparison `td <= self.last_check` raises
`TypeError`: the whole cycle aborts with the checkpoint unchanged and nothing
delivered — the unparseable entry is not skipped and the remaining entry is
never processed, contrary to the claim. -/
theorem parse_failure_aborts_cycle :
    check_new_threads (fun _ => "")
        ⟨⟨2017, 6, 5⟩, fun _ => [RawEntry.entry none "t" "u",
          RawEntry.entry (some 7) "t2" "u2"], ⟨2017, 6, 9⟩, fun _ => true⟩
        ⟨⟨2017, 6, 0⟩, true⟩ =
      (⟨⟨2017, 6, 0⟩, true⟩, .error CycleError.typeError) := rfl

/-- C3 amended: the checkpoint assignment happens after collection but before
delivery. When a cycle aborts during collection (an uncaught fetch error or
the TypeError from an unparseable date), the bot state — including the
checkpoint — is unchanged; when it aborts during chunk delivery, the
checkpoint has already been advanced to the cycle-end now(). -/
theorem checkpoint_on_abort (hd : Nat → String) (inp : CycleInput)
    (s : BotState) (e : CycleError)
    (h : (check_new_threads hd inp s).2 = .error e) :
    (e ≠ CycleError.deliveryError → (check_new_threads hd inp s).1 = s) ∧
      (e = CycleError.deliveryError →
        (check_new_threads hd inp s).1.last_check = inp.nowEnd) := by
  cases hcm : collectMonths hd s.last_check.ts inp.archive
      (months_after s.last_check inp.today) with
  | error e2 =>
    rw [check_new_threads_of_collect_error hd inp s e2 hcm] at h ⊢
    injection h with h
    subst h
    refine ⟨fun _ => rfl, fun hdel => ?_⟩
    rcases collectMonths_error_cases hd s.last_check.ts inp.archive
        (months_after s.last_check inp.today) e2 hcm with h1 | h1 <;>
      (rw [h1] at hdel; exact absurd hdel (by decide))
  | ok new_threads =>
    by_cases hnil : new_threads = []
    · subst hnil
      rw [check_new_threads_of_collect_ok_nil hd inp s hcm] at h
      cases h
    · cases hdc : deliverChunks inp.deliverOk 0 (paginate_message
          (("<b>New threads since " ++ hd inp.nowEnd.ts ++ "</b>\n") ::
            new_threads)) with
      | error e2 =>
        rw [check_new_threads_of_deliver_error hd inp s new_threads e2 hnil
          hcm hdc] at h ⊢
        injection h with h
        subst h
        have he2 := deliverChunks_error_is_delivery inp.deliverOk 0 _ e2 hdc
        subst he2
        exact ⟨fun hne => absurd rfl hne, fun _ => rfl⟩
      | ok u =>
        cases u
        rw [check_new_threads_of_deliver_ok hd inp s new_threads hnil hcm
          hdc] at h
        cases h

/-- C3 amended witness: at a concrete cycle that fails during delivery, the
theorem yields that the checkpoint equals the cycle-end now(). -/
theorem checkpoint_on_abort_witness :
    (CycleError.deliveryError ≠ CycleError.deliveryError →
      (check_new_threads (fun _ => "")
        ⟨⟨2017, 6, 5⟩, fun _ => [RawEntry.entry (some 5) "t" "u"],
          ⟨2017, 6, 9⟩, fun _ => false⟩ ⟨⟨2017, 6, 0⟩, true⟩).1 =
        ⟨⟨2017, 6, 0⟩, true⟩) ∧
    (CycleError.deliveryError = CycleError.deliveryError →
      (check_new_threads (fun _ => "")
        ⟨⟨2017, 6, 5⟩, fun _ => [RawEntry.entry (some 5) "t" "u"],
          ⟨2017, 6, 9⟩, fun _ => false⟩ ⟨⟨2017, 6, 0⟩, true⟩).1.last_check =
        ⟨2017, 6, 9⟩) :=
  checkpoint_on_abort (fun _ => "")
    ⟨⟨2017, 6, 5⟩, fun _ => [RawEntry.entry (some 5) "t" "u"],
      ⟨2017, 6, 9⟩, fun _ => false⟩ ⟨⟨2017, 6, 0⟩, true⟩
    CycleError.deliveryError rfl

/-- C3 counterexample: a concrete cycle aborts with an unrecoverable delivery
error before its output was delivered, yet the checkpoint no longer holds the
value it held when the cycle started — the claim that any abort before
complete delivery leaves the checkpoint unchanged is false on the code. -/
theorem checkpoint_on_abort_counterexample :
    (check_new_threads (fun _ => "")
        ⟨⟨2017, 6, 5⟩, fun _ => [RawEntry.entry (some 5) "t" "u"],
          ⟨2017, 6, 9⟩, fun _ => false⟩ ⟨⟨2017, 6, 0⟩, true⟩).2 =
        .error CycleError.deliveryError ∧
      (check_new_threads (fun _ => "")
        ⟨⟨2017, 6, 5⟩, fun _ => [RawEntry.entry (some 5) "t" "u"],
          ⟨2017, 6, 9⟩, fun _ => false⟩ ⟨⟨2017, 6, 0⟩, true⟩).1.last_check ≠
        ⟨2017, 6, 0⟩ :=
  ⟨rfl, by decide⟩

lemma chain'_le_cons_of_le {x y : Nat} {l : List Nat} (hxy : x ≤ y)
    (h : List.Chain' (· ≤ ·) (y :: l)) :
    List.Chain' (· ≤ ·) (x :: l) := by
  rw [List.chain'_cons'] at h ⊢
  exact ⟨fun z hz => le_trans hxy (h.1 z hz), h.2⟩

/-- C4: assuming the clock now() is non-decreasing between calls (the initial
checkpoint is an earlier now() reading than the successive cycle-end now()
readings, which are themselves non-decreasing), the checkpoint values after
successive check_new_threads invocations form a non-decreasing sequence —
aborted cycles included, hence in particular for completed ones. -/
theorem checkpoint_monotone (hd : Nat → String) (s : BotState)
    (inputs : List CycleInput)
    (h : List.Chain' (· ≤ ·)
      (s.last_check.ts :: inputs.map fun i => i.nowEnd.ts)) :
    List.Chain' (· ≤ ·) (s.last_check.ts :: checkpointTrace hd s inputs) := by
  induction inputs generalizing s with
  | nil => simp [checkpointTrace]
  | cons inp rest ih =>
    rw [List.map_cons, List.chain'_cons] at h
    obtain ⟨h1, h2⟩ := h
    simp only [checkpointTrace]
    rw [List.chain'_cons]
    have hcases := check_new_threads_last_check_cases hd inp s
    have hle1 : s.last_check.ts ≤
        (check_new_threads hd inp s).1.last_check.ts := by
      rcases hcases with hA | hB
      · rw [hA]
      · rw [hB]; exact h1
    refine ⟨hle1, ?_⟩
    apply ih
    rcases hcases with hA | hB
    · rw [hA]
      exact chain'_le_cons_of_le h1 h2
    · rw [hB]
      exact h2

/-- C4 witness: two successful cycles over an empty archive advance the
checkpoint from 0 to 5 to 9, a non-decreasing sequence. -/
theorem checkpoint_monotone_witness :
    List.Chain' (· ≤ ·) ((0 : Nat) :: checkpointTrace (fun _ => "")
      ⟨⟨2017, 6, 0⟩, true⟩
      [⟨⟨2017, 6, 1⟩, fun _ => [], ⟨2017, 6, 5⟩, fun _ => true⟩,
       ⟨⟨2017, 6, 6⟩, fun _ => [], ⟨2017, 6, 9⟩, fun _ => true⟩]) :=
  checkpoint_monotone (fun _ => "") ⟨⟨2017, 6, 0⟩, true⟩
    [⟨⟨2017, 6, 1⟩, fun _ => [], ⟨2017, 6, 5⟩, fun _ => true⟩,
     ⟨⟨2017, 6, 6⟩, fun _ => [], ⟨2017, 6, 9⟩, fun _ => true⟩]
    (by
      show List.Chain (· ≤ ·) 0 [5, 9]
      exact List.Chain.cons (by decide)
        (List.Chain.cons (by decide) List.Chain.nil))

/-- C5: during a cycle with starting checkpoint since, among the entries of a
month whose dates all parse, the collection loop keeps — formatted through
build_thread_row, in input order — exactly the entries whose timestamp is
strictly greater than since, and discards every entry with timestamp at most
since. -/
theorem entries_kept_iff_strictly_newer (hd : Nat → String) (since : Nat)
    (base : String) (entries : List (Nat × String × String)) :
    collectEntries hd since base
        (entries.map fun e => RawEntry.entry (some e.1) e.2.1 e.2.2) =
      Except.ok ((entries.filter fun e => decide (since < e.1)).map
        fun e => build_thread_row hd e.1 e.2.1 (base ++ e.2.2)) := by
  induction entries with
  | nil => rfl
  | cons e rest ih =>
    obtain ⟨d, tm, tu⟩ := e
    simp only [List.map_cons, collectEntries, List.filter_cons]
    by_cases hle : d ≤ since
    · rw [if_pos hle, ih]
      have hlt : ¬ since < d := Nat.not_lt.mpr hle
      simp [hlt]
    · rw [if_neg hle, ih]
      have hlt : since < d := Nat.not_le.mp hle
      simp [hlt, Except.map]

/-- C10: once the bot has been started, a checkpoint-set command whose
free-text date argument is unparseable (or that has no argument after the
command word) reports the user-visible error message and leaves the state —
in particular the checkpoint — unchanged, while a parseable argument sets the
checkpoint to the parsed timestamp with a confirmation message. -/
theorem set_last_check_spec (hd : Nat → String)
    (when : String → Option Timestamp) (s : BotState) (text : String)
    (hstart : s.started = true) :
    (argAfterSpace text = none →
        set_last_check hd when s text = (s, parseErrorMsg)) ∧
      (∀ arg, argAfterSpace text = some arg → when arg = none →
        set_last_check hd when s text = (s, parseErrorMsg)) ∧
      (∀ arg day, argAfterSpace text = some arg → when arg = some day →
        set_last_check hd when s text =
          (⟨day, s.started⟩, "Setting last check: " ++ hd day.ts)) := by
  refine ⟨?_, ?_, ?_⟩
  · intro hno
    simp only [set_last_check, hstart, hno]
    rfl
  · intro arg harg hwhen
    simp only [set_last_check, hstart, harg, hwhen]
    rfl
  · intro arg day harg hwhen
    simp only [set_last_check, hstart, harg, hwhen]
    rfl

/-- C10 witness: with the bot started, a parseable argument after the command
word sets the checkpoint to the parsed timestamp. -/
theorem set_last_check_spec_witness :
    set_last_check (fun _ => "") (fun _ => some ⟨2017, 6, 42⟩)
        ⟨⟨2010, 1, 0⟩, true⟩ "/slc x" =
      (⟨⟨2017, 6, 42⟩, true⟩, "Setting last check: " ++ (fun _ : Nat => "") 42) :=
  (set_last_check_spec (fun _ => "") (fun _ => some ⟨2017, 6, 42⟩)
      ⟨⟨2010, 1, 0⟩, true⟩ "/slc x" rfl).2.2 "x" ⟨2017, 6, 42⟩ (by decide) rfl

/-- C9 witness at a small input. -/
theorem build_thread_row_truncation_witness :
    (pySliceTo (pyStrip "t") (4000 - (("u" : String).length : Int))).length +
        ("u" : String).length ≤ 4000 ∧
      (build_thread_row (fun _ => "d") 0 "t" "u").length ≤
        4019 + ("d" : String).length ∧
      ∃ p q, build_thread_row (fun _ => "d") 0 "t" "u" = p ++ ("u" ++ q) :=
  build_thread_row_truncation (fun _ => "d") 0 "t" "u" (by decide)
